import Mathlib

/-!
# A shallow embedding of `.github/scripts/update_mumu_version.py`

Python strings are modelled as `List Char`.  The script has two relevant
functions:

* `parse_content` extracts a version and a date from an HTML page using an
  XPath lookup (version) and an ordered list of regular expressions (date).
  The external `lxml` library is modelled abstractly: a parse function of
  type `List Char → Option HtmlTree` stands for `lxml.html.fromstring`
  (returning `none` when parsing raises), where an `HtmlTree` records the
  only two views of the tree the script uses — the `text_content()` of the
  elements selected by the fixed `VERSION_XPATH`, and the visible text of
  the whole document (`lxml.html.tostring(tree, method='text')`).

* `update_readme` rewrites three sentinel-delimited regions of a text file.
  `re.sub` on the pattern `(escaped start)(.*?)(escaped end)` with `DOTALL`
  is modelled by `subMarkers`, which replaces every non-overlapping
  leftmost-start / nearest-end span, exactly as the Python regex engine
  does for this pattern.  The file system is modelled as an
  `Option (List Char)` (`none` = file absent), `datetime.now().strftime`
  as an explicit `current_date` argument, and a write that raises `IOError`
  by the `WriteOutcome` argument.

Regex character classes are modelled on their ASCII fragment (`\s`, `\d`);
the Chinese label and fullwidth colon of the date pattern are carried
verbatim.
-/

/-- Characters matched by Python's `\s` and stripped by `str.strip`
(ASCII fragment). -/
def isPySpace (c : Char) : Bool :=
  c = ' ' || c = '\t' || c = '\n' || c = '\r' || c = '\x0b' || c = '\x0c'

/-- The character class `[\d.]` of `VERSION_TEXT_PATTERN`. -/
def isDigitDot (c : Char) : Bool := c.isDigit || c = '.'

/-- Python `str.strip()`. -/
def pyStrip (s : List Char) : List Char :=
  ((s.dropWhile isPySpace).reverse.dropWhile isPySpace).reverse

/-- `VERSION_TEXT_PATTERN = re.compile(r"V\s*([\d.]+)", re.IGNORECASE)`;
`versionSearch s` is `VERSION_TEXT_PATTERN.search(s)`, returning the text
of capture group 1 of the leftmost match.  (`IGNORECASE` lets `V` match
`v`; greedy `\s*` then `[\d.]+` never needs backtracking because the two
classes are disjoint.) -/
def versionSearch : List Char → Option (List Char)
  | [] => none
  | c :: cs =>
    if c = 'V' || c = 'v' then
      let grp := (cs.dropWhile isPySpace).takeWhile isDigitDot
      if grp = [] then versionSearch cs else some grp
    else versionSearch cs

/-- Case-insensitive prefix test (Python `re.IGNORECASE` on an ASCII
literal). -/
def ciPrefixOf : List Char → List Char → Bool
  | [], _ => true
  | _ :: _, [] => false
  | a :: as, b :: bs => (a.toLower == b.toLower) && ciPrefixOf as bs

/-- The character class `[:：\s]` of the first date pattern. -/
def isDateSep (c : Char) : Bool := c = ':' || c = '：' || isPySpace c

/-- Match `\d{4}-\d{2}-\d{2}` exactly at the head of the input, returning
the matched ten characters. -/
def dateAt : List Char → Option (List Char)
  | y1 :: y2 :: y3 :: y4 :: '-' :: b1 :: b2 :: '-' :: d1 :: d2 :: _ =>
    if y1.isDigit && y2.isDigit && y3.isDigit && y4.isDigit &&
       b1.isDigit && b2.isDigit && d1.isDigit && d2.isDigit then
      some [y1, y2, y3, y4, '-', b1, b2, '-', d1, d2]
    else none
  | _ => none

/-- Match `(?:Last updated|最后更新)[:：\s]*(\d{4}-\d{2}-\d{2})` exactly at
the head of the input (alternatives tried left to right; the greedy
separator class never needs backtracking because it contains no digit). -/
def dateLabelAt (s : List Char) : Option (List Char) :=
  if ciPrefixOf "Last updated".toList s then dateAt ((s.drop 12).dropWhile isDateSep)
  else if "最后更新".toList.isPrefixOf s then dateAt ((s.drop 4).dropWhile isDateSep)
  else none

/-- `re.search` of the first `DATE_PATTERNS` entry
`(?:Last updated|最后更新)[:：\s]*(\d{4}-\d{2}-\d{2})` (IGNORECASE),
returning capture group 1 of the leftmost match. -/
def dateSearch1 : List Char → Option (List Char)
  | [] => none
  | c :: cs =>
    match dateLabelAt (c :: cs) with
    | some g => some g
    | none => dateSearch1 cs

/-- `re.search` of the second `DATE_PATTERNS` entry `(\d{4}-\d{2}-\d{2})`. -/
def dateSearch2 : List Char → Option (List Char)
  | [] => none
  | c :: cs =>
    match dateAt (c :: cs) with
    | some g => some g
    | none => dateSearch2 cs

/-- The ordered `DATE_PATTERNS` list of the script, each pattern modelled
by its `search` function. -/
def DATE_PATTERNS : List (List Char → Option (List Char)) :=
  [dateSearch1, dateSearch2]

/-- The `for pattern in DATE_PATTERNS: ... break` loop: first matching
pattern wins. -/
def firstMatch : List (List Char → Option (List Char)) → List Char → Option (List Char)
  | [], _ => none
  | p :: ps, t =>
    match p t with
    | some g => some g
    | none => firstMatch ps t

/-- The two views of an `lxml` document tree used by the script:
`xpathFontTexts` is the list of `text_content()` strings of the elements
returned by `tree.xpath(VERSION_XPATH)`, and `textContent` is
`lxml.html.tostring(tree, encoding='unicode', method='text')`. -/
structure HtmlTree where
  xpathFontTexts : List (List Char)
  textContent : List Char

/-- `parse_content(html_content)`.  `fromstring` models
`lxml.html.fromstring` together with the fixed-XPath lookup and text
extraction (`none` = the library raised).  `html_content = none` models
Python `None`; the `[]` test models the falsiness check
`if not html_content`. -/
def parse_content (fromstring : List Char → Option HtmlTree)
    (html_content : Option (List Char)) :
    Option (List Char) × Option (List Char) :=
  match html_content with
  | none => (none, none)
  | some t =>
    if t = [] then (none, none)
    else
      match fromstring t with
      | none => (none, none)
      | some tree =>
        let found_version : Option (List Char) :=
          match tree.xpathFontTexts with
          | [] => none
          | e :: _ =>
            match versionSearch (pyStrip e) with
            | some g => some ('V' :: g)
            | none => none
        let found_date : Option (List Char) :=
          firstMatch DATE_PATTERNS tree.textContent
        (found_version, found_date)

/-! ## The document updater -/

def VERSION_START_MARKER : List Char := "<!-- MUMU_VERSION_START -->".toList
def VERSION_END_MARKER : List Char := "<!-- MUMU_VERSION_END -->".toList
def DATE_START_MARKER : List Char := "<!-- MUMU_UPDATE_DATE_START -->".toList
def DATE_END_MARKER : List Char := "<!-- MUMU_UPDATE_DATE_END -->".toList
def COMPATIBLE_VERSION_START_MARKER : List Char :=
  "<!-- MUMU_COMPATIBLE_VERSION_START -->".toList
def COMPATIBLE_VERSION_END_MARKER : List Char :=
  "<!-- MUMU_COMPATIBLE_VERSION_END -->".toList

/-- Split `s` at the leftmost occurrence of the literal `pat`:
`splitFirst pat s = some (a, b)` iff `s = a ++ pat ++ b` with `a` shortest.
This is `re.search` for an `re.escape`d literal. -/
def splitFirst (pat : List Char) : List Char → Option (List Char × List Char)
  | [] => if pat.isPrefixOf [] then some ([], []) else none
  | c :: cs =>
    if pat.isPrefixOf (c :: cs) then some ([], (c :: cs).drop pat.length)
    else (splitFirst pat cs).map (fun q => (c :: q.1, q.2))

/-- Fueled worker for `subMarkers`.  Each step finds the leftmost
occurrence of the start sentinel, the nearest end sentinel after it
(the non-greedy `(.*?)` of the `DOTALL` pattern), replaces the span, and
continues after it, exactly like `re.sub`.  The group between the
sentinels is discarded. -/
def subAux (S E r : List Char) : Nat → List Char → List Char
  | 0, s => s
  | n + 1, s =>
    match splitFirst S s with
    | none => s
    | some (a, rest) =>
      match splitFirst E rest with
      | none => s
      | some (_, q) => a ++ (S ++ (r ++ (E ++ subAux S E r n q)))

/-- `re.sub(f"({re.escape S})(.*?)({re.escape E})", f"\\1{r}\\3", s)` with
`re.DOTALL`: every non-overlapping span from a start sentinel to the
nearest following end sentinel has its interior replaced by `r`.  The
fuel `s.length + 1` bounds the number of replacements (each consumes at
least the nonempty start sentinel). -/
def subMarkers (S E r s : List Char) : List Char :=
  subAux S E r (s.length + 1) s

/-- The replacement text `" {x} "` used for the main version and the date
regions. -/
def padBoth (x : List Char) : List Char := ' ' :: (x ++ [' '])

/-- The replacement text `" {x}"` used for the compatible-version region
(no space before the closing sentinel). -/
def padLeft (x : List Char) : List Char := ' ' :: x

/-- The pure content transformation of `update_readme` (lines 108-131 of
the script): version substitution, compatible-version substitution, then
date substitution, the date falling back to the current date.  The
patterns `some (c :: v)` model Python truthiness (`if version_str:` /
`if date_str:` are false for `None` and for the empty string). -/
def update_content (content : List Char) (version_str date_str : Option (List Char))
    (current_date : List Char) : List Char :=
  let c1 :=
    match version_str with
    | some (c :: v) =>
      subMarkers VERSION_START_MARKER VERSION_END_MARKER (padBoth (c :: v)) content
    | _ => content
  let c2 :=
    match version_str with
    | some (c :: v) =>
      subMarkers COMPATIBLE_VERSION_START_MARKER COMPATIBLE_VERSION_END_MARKER
        (padLeft (c :: v)) c1
    | _ => c1
  match date_str with
  | some (c :: d) =>
    subMarkers DATE_START_MARKER DATE_END_MARKER (padBoth (c :: d)) c2
  | _ =>
    subMarkers DATE_START_MARKER DATE_END_MARKER (padBoth current_date) c2

/-- Whether `open(path, 'w')` / `f.write` succeeds or raises `IOError`. -/
inductive WriteOutcome
  | ok
  | ioError
deriving DecidableEq

/-- Outcome of one `update_readme` call: the file state afterwards, the
Boolean return value, and whether a write was attempted at all. -/
structure UpdateResult where
  file : Option (List Char)
  ret : Bool
  wrote : Bool
deriving DecidableEq

/-- `update_readme(readme_path, version_str, date_str)`.  The target file
is `none` when absent (the `FileNotFoundError` branch).  When the computed
content equals the original, no write is attempted and `False` is
returned; otherwise the write either succeeds (`True`) or raises
(`False`, file left as it was). -/
def update_readme (file : Option (List Char)) (version_str date_str : Option (List Char))
    (current_date : List Char) (w : WriteOutcome) : UpdateResult :=
  match file with
  | none => ⟨none, false, false⟩
  | some content =>
    let newContent := update_content content version_str date_str current_date
    if newContent = content then ⟨some content, false, false⟩
    else
      match w with
      | .ok => ⟨some newContent, true, true⟩
      | .ioError => ⟨some content, false, true⟩

/-- The text strictly between the first occurrence of `S` and the nearest
following occurrence of `E` — what a reader of the document regards as
the sentinel region's content. -/
def readRegion (S E c : List Char) : Option (List Char) :=
  match splitFirst S c with
  | none => none
  | some (_, rest) =>
    match splitFirst E rest with
    | none => none
    | some (m, _) => some m

/-- A document containing the three sentinel pairs in order, with region
interiors `m1`, `m2`, `m3` and surrounding free text `A`, `B`, `C`, `D2`. -/
def assemble (A m1 B m2 C m3 D2 : List Char) : List Char :=
  A ++ (VERSION_START_MARKER ++ (m1 ++ (VERSION_END_MARKER ++
    (B ++ (COMPATIBLE_VERSION_START_MARKER ++ (m2 ++ (COMPATIBLE_VERSION_END_MARKER ++
      (C ++ (DATE_START_MARKER ++ (m3 ++ (DATE_END_MARKER ++ D2)))))))))))

/-- Free of the sentinel lead character `<`. -/
abbrev ltFree (s : List Char) : Prop := ∀ a ∈ s, a ≠ '<'

/-- No occurrence of any of the six sentinels. -/
abbrev noMarkerOcc (x : List Char) : Prop :=
  splitFirst VERSION_START_MARKER x = none ∧
  splitFirst VERSION_END_MARKER x = none ∧
  splitFirst COMPATIBLE_VERSION_START_MARKER x = none ∧
  splitFirst COMPATIBLE_VERSION_END_MARKER x = none ∧
  splitFirst DATE_START_MARKER x = none ∧
  splitFirst DATE_END_MARKER x = none

/-- Well-formed sentinel layout (the spec's `MarkerRegion` model: the three
regions pre-exist, each sentinel occurring once): the free parts contain
no sentinel and the region interiors contain no `<`. -/
abbrev WFParts (A B C D2 m1 m2 m3 : List Char) : Prop :=
  noMarkerOcc A ∧ noMarkerOcc B ∧ noMarkerOcc C ∧ noMarkerOcc D2 ∧
  ltFree m1 ∧ ltFree m2 ∧ ltFree m3

/-- Version/date option free of `<` (so the replacement cannot fabricate a
sentinel). -/
abbrev optLtFree : Option (List Char) → Prop
  | none => True
  | some s => ltFree s

instance instDecLtFree (s : List Char) : Decidable (ltFree s) :=
  List.decidableBAll _ s

instance instDecNoMarkerOcc (x : List Char) : Decidable (noMarkerOcc x) :=
  instDecidableAnd

instance instDecWFParts (A B C D2 m1 m2 m3 : List Char) :
    Decidable (WFParts A B C D2 m1 m2 m3) :=
  instDecidableAnd

instance instDecOptLtFree (o : Option (List Char)) : Decidable (optLtFree o) :=
  match o with
  | none => isTrue trivial
  | some _ => instDecLtFree _

/-- New interior of the main version region. -/
def newV1 : Option (List Char) → List Char → List Char
  | some (c :: v), _ => padBoth (c :: v)
  | _, m => m

/-- New interior of the compatible-version region. -/
def newV2 : Option (List Char) → List Char → List Char
  | some (c :: v), _ => padLeft (c :: v)
  | _, m => m

/-- New interior of the date region (always rewritten, today's date when no
date was scraped). -/
def newDate : Option (List Char) → List Char → List Char
  | some (c :: d), _ => padBoth (c :: d)
  | _, t => padBoth t

/-! ## Concrete inputs used by witnesses and counterexamples -/

/-- A well-formed HTML page whose visible text carries a `V1.2.3` token but
whose DOM has no `div` at all, so the fixed `VERSION_XPATH`
(`/html/body/div[2]/...`) selects nothing. -/
def c1Html : List Char :=
  "<html><body><p>Current version: V1.2.3</p></body></html>".toList

/-- The `lxml` behaviour on `c1Html`: the XPath lookup returns no element,
and the document's visible text is the paragraph text. -/
def c1Fromstring : List Char → Option HtmlTree :=
  fun _ => some ⟨[], "Current version: V1.2.3".toList⟩

/-- Page text on which both date patterns match, at different places. -/
def c8Text : List Char := "2020-05-05 Last updated: 2021-07-09".toList

def c8Fromstring : List Char → Option HtmlTree :=
  fun _ => some ⟨[], c8Text⟩

/-- An XPath hit whose text uses a lowercase `v`, inner whitespace and
trailing noise. -/
def c9Fromstring : List Char → Option HtmlTree :=
  fun _ => some ⟨["  v 4.1.29 (android)  ".toList], "v 4.1.29".toList⟩

def exA : List Char := "# MuMu title\n".toList
def exm1 : List Char := " V0.9.1 ".toList
def exB : List Char := "\nworks with ".toList
def exm2 : List Char := " V0.9.1".toList
def exC : List Char := "\nlast sync ".toList
def exm3 : List Char := " 2020-01-01 ".toList
def exD : List Char := "\nthe end\n".toList
def exDoc : List Char := assemble exA exm1 exB exm2 exC exm3 exD
def exV : List Char := "V4.2.0".toList
def exDate : List Char := "2025-10-10".toList
def exToday : List Char := "2026-10-12".toList

/-! ## Library lemmas about `splitFirst` -/

theorem splitFirst_nil (p : List Char) :
    splitFirst p [] = if p.isPrefixOf [] then some ([], []) else none := rfl

theorem splitFirst_cons (p : List Char) (c : Char) (cs : List Char) :
    splitFirst p (c :: cs) =
      if p.isPrefixOf (c :: cs) then some ([], (c :: cs).drop p.length)
      else (splitFirst p cs).map (fun q => (c :: q.1, q.2)) := rfl

/-- A `some` answer of `splitFirst` really is a decomposition of the
input. -/
theorem splitFirst_some_eq (p : List Char) :
    ∀ (s a b : List Char), splitFirst p s = some (a, b) → s = a ++ (p ++ b) := by
  intro s
  induction s with
  | nil =>
    intro a b h
    rw [splitFirst_nil] at h
    split at h
    · rename_i hpre
      injection h with h'
      have hp : p = [] := by
        cases p with
        | nil => rfl
        | cons x xs => simp [List.isPrefixOf] at hpre
      cases h'
      simp [hp]
    · exact absurd h (by simp)
  | cons c cs ih =>
    intro a b h
    rw [splitFirst_cons] at h
    split at h
    · rename_i hpre
      injection h with h'
      cases h'
      have hp : p = (c :: cs).take p.length :=
        List.prefix_iff_eq_take.mp (List.isPrefixOf_iff_prefix.mp hpre)
      simp only [List.nil_append]
      have hsplit : p ++ (c :: cs).drop p.length =
          (c :: cs).take p.length ++ (c :: cs).drop p.length := by rw [← hp]
      rw [hsplit, List.take_append_drop]
    · rw [Option.map_eq_some'] at h
      obtain ⟨⟨a', b'⟩, hq, hf⟩ := h
      cases hf
      have := ih a' b' hq
      simp [this]

theorem splitFirst_none_not_isPrefixOf {p s : List Char}
    (h : splitFirst p s = none) : p.isPrefixOf s = false := by
  cases s with
  | nil =>
    rw [splitFirst_nil] at h
    split at h
    · exact absurd h (by simp)
    · rename_i hc
      simp only [Bool.not_eq_true] at hc
      exact hc
  | cons c cs =>
    rw [splitFirst_cons] at h
    split at h
    · exact absurd h (by simp)
    · rename_i hc
      simp only [Bool.not_eq_true] at hc
      exact hc

theorem splitFirst_none_cons {p : List Char} {c : Char} {cs : List Char}
    (h : splitFirst p (c :: cs) = none) : splitFirst p cs = none := by
  rw [splitFirst_cons] at h
  split at h
  · exact absurd h (by simp)
  · exact Option.map_eq_none'.mp h

/-- A pattern that starts with `<` has no occurrence inside `<`-free
text. -/
theorem splitFirst_none_of_ltFree {M : List Char} (hMh : M.head? = some '<')
    {s : List Char} (hs : ltFree s) : splitFirst M s = none := by
  obtain ⟨M', rfl⟩ : ∃ M', M = '<' :: M' := by
    cases M with
    | nil => simp at hMh
    | cons a M' =>
      simp only [List.head?_cons, Option.some.injEq] at hMh
      exact ⟨M', by rw [hMh]⟩
  induction s with
  | nil => rfl
  | cons c cs ih =>
    have hc : c ≠ '<' := hs c (List.mem_cons_self c cs)
    have hcs : ltFree cs := fun a ha => hs a (List.mem_cons_of_mem _ ha)
    have hbeq : ('<' == c) = false := beq_eq_false_iff_ne.mpr (Ne.symm hc)
    rw [splitFirst_cons]
    have hpre : ('<' :: M').isPrefixOf (c :: cs) = false := by
      simp [List.isPrefixOf, hbeq]
    rw [if_neg (by simp [hpre]), ih hcs]
    rfl

theorem head_lt_cases {M : List Char} (hMh : M.head? = some '<') :
    ∃ M', M = '<' :: M' := by
  cases M with
  | nil => simp at hMh
  | cons a M' =>
    simp only [List.head?_cons, Option.some.injEq] at hMh
    exact ⟨M', by rw [hMh]⟩

theorem mem_drop_one_of_mem_drop {l : List Char} {a : Char} {n : Nat}
    (hn : 1 ≤ n) (h : a ∈ l.drop n) : a ∈ l.drop 1 := by
  have he : (l.drop 1).drop (n - 1) = l.drop n := by
    rw [List.drop_drop, Nat.add_sub_cancel' hn]
  rw [← he] at h
  exact List.drop_subset _ _ h

/-- Skip a `<`-free block: a pattern starting with `<` cannot begin inside
it. -/
theorem splitFirst_append_ltFree {M : List Char} (hMh : M.head? = some '<')
    {x : List Char} (hx : ltFree x) (y : List Char) :
    splitFirst M (x ++ y) = (splitFirst M y).map (fun q => (x ++ q.1, q.2)) := by
  obtain ⟨M', rfl⟩ := head_lt_cases hMh
  induction x with
  | nil => cases h : splitFirst ('<' :: M') y <;> simp [h]
  | cons c x' ih =>
    have hc : c ≠ '<' := hx c (List.mem_cons_self c x')
    have hx' : ltFree x' := fun a ha => hx a (List.mem_cons_of_mem _ ha)
    have hbeq : ('<' == c) = false := beq_eq_false_iff_ne.mpr (Ne.symm hc)
    rw [List.cons_append, splitFirst_cons]
    have hpre : ('<' :: M').isPrefixOf (c :: (x' ++ y)) = false := by
      simp [List.isPrefixOf, hbeq]
    rw [if_neg (by simp [hpre]), ih hx']
    cases h : splitFirst ('<' :: M') y <;> simp

/-- Skip a block known to contain no occurrence of a pattern whose
interior is `<`-free, when the rest of the text starts with `<`: an
occurrence can then neither begin inside the block nor straddle its end. -/
theorem splitFirst_append_of_none {M : List Char} (hMd : ltFree (M.drop 1))
    {x : List Char} (hx : splitFirst M x = none) {y : List Char}
    (hy : y.head? = some '<') :
    splitFirst M (x ++ y) = (splitFirst M y).map (fun q => (x ++ q.1, q.2)) := by
  induction x with
  | nil => cases h : splitFirst M y <;> simp [h]
  | cons c x' ih =>
    have hx' : splitFirst M x' = none := splitFirst_none_cons hx
    rw [List.cons_append, splitFirst_cons]
    have hpre : M.isPrefixOf (c :: (x' ++ y)) = false := by
      cases hpp : M.isPrefixOf (c :: (x' ++ y)) with
      | false => rfl
      | true =>
        exfalso
        have hpref : M <+: (c :: x') ++ y := by
          rw [List.cons_append]
          exact List.isPrefixOf_iff_prefix.mp hpp
        rcases le_or_lt M.length (c :: x').length with hle | hlt
        · have h1 : M = ((c :: x') ++ y).take M.length :=
            List.prefix_iff_eq_take.mp hpref
          have h2 : ((c :: x') ++ y).take M.length = (c :: x').take M.length := by
            rw [List.take_append_eq_append_take, Nat.sub_eq_zero_of_le hle,
              List.take_zero, List.append_nil]
          have h3 : M <+: c :: x' := by
            rw [h1, h2]
            exact List.take_prefix _ _
          have hne : splitFirst M (c :: x') ≠ none := by
            rw [splitFirst_cons,
              if_pos (by simp [List.isPrefixOf_iff_prefix.mpr h3])]
            simp
          exact hne hx
        · have hn : (c :: x').length ≤ M.length := Nat.le_of_lt hlt
          have h1 : M = ((c :: x') ++ y).take M.length :=
            List.prefix_iff_eq_take.mp hpref
          have h2 : M.take (c :: x').length = c :: x' := by
            conv_lhs => rw [h1]
            rw [List.take_take, min_eq_left hn, List.take_left]
          have h3 : M = (c :: x') ++ M.drop (c :: x').length := by
            conv_lhs => rw [← List.take_append_drop (c :: x').length M]
            rw [h2]
          obtain ⟨w, hw⟩ := hpref
          rw [h3, List.append_assoc] at hw
          have hyw : y = M.drop (c :: x').length ++ w :=
            List.append_cancel_left hw.symm
          have htne : M.drop (c :: x').length ≠ [] := by
            intro h0
            have := List.drop_eq_nil_iff.mp h0
            omega
          obtain ⟨t0, t', het⟩ : ∃ t0 t', M.drop (c :: x').length = t0 :: t' := by
            cases hee : M.drop (c :: x').length with
            | nil => exact absurd hee htne
            | cons t0 t' => exact ⟨t0, t', rfl⟩
          have hy0 : t0 = '<' := by
            rw [hyw, het] at hy
            simpa using hy
          have hmem : t0 ∈ M.drop 1 := by
            refine mem_drop_one_of_mem_drop (n := (c :: x').length) (by simp) ?_
            rw [het]
            exact List.mem_cons_self _ _
          exact (hMd t0 hmem) hy0
    rw [if_neg (by simp [hpre]), ih hx']
    cases h : splitFirst M y <;> simp

/-- Skip a different sentinel: mutual non-prefixness rules out a match at
its head, `<`-freeness of its interior rules out a match inside it. -/
theorem splitFirst_append_marker {M K : List Char} (hMh : M.head? = some '<')
    (hKd : ltFree (K.drop 1)) (hMK : M.isPrefixOf K = false)
    (hKM : K.isPrefixOf M = false) (y : List Char) :
    splitFirst M (K ++ y) = (splitFirst M y).map (fun q => (K ++ q.1, q.2)) := by
  cases K with
  | nil => simp [List.isPrefixOf] at hKM
  | cons k K' =>
    rw [List.cons_append, splitFirst_cons]
    have hpre : M.isPrefixOf (k :: (K' ++ y)) = false := by
      cases hpp : M.isPrefixOf (k :: (K' ++ y)) with
      | false => rfl
      | true =>
        exfalso
        have hpref : M <+: (k :: K') ++ y := by
          rw [List.cons_append]
          exact List.isPrefixOf_iff_prefix.mp hpp
        rcases le_or_lt M.length (k :: K').length with hle | hlt
        · have h1 : M = ((k :: K') ++ y).take M.length :=
            List.prefix_iff_eq_take.mp hpref
          have h2 : ((k :: K') ++ y).take M.length = (k :: K').take M.length := by
            rw [List.take_append_eq_append_take, Nat.sub_eq_zero_of_le hle,
              List.take_zero, List.append_nil]
          have h3 : M <+: k :: K' := by
            rw [h1, h2]
            exact List.take_prefix _ _
          have := List.isPrefixOf_iff_prefix.mpr h3
          rw [hMK] at this
          exact absurd this (by simp)
        · have hn : (k :: K').length ≤ M.length := Nat.le_of_lt hlt
          have h1 : M = ((k :: K') ++ y).take M.length :=
            List.prefix_iff_eq_take.mp hpref
          have h2 : M.take (k :: K').length = k :: K' := by
            conv_lhs => rw [h1]
            rw [List.take_take, min_eq_left hn, List.take_left]
          have h3 : (k :: K') <+: M := by
            rw [← h2]
            exact List.take_prefix _ _
          have := List.isPrefixOf_iff_prefix.mpr h3
          rw [hKM] at this
          exact absurd this (by simp)
    rw [if_neg (by simp [hpre]), splitFirst_append_ltFree hMh (show ltFree K' from hKd) y]
    cases h : splitFirst M y <;> simp

/-- A pattern at the head of the text is its own leftmost occurrence. -/
theorem splitFirst_self_append (M y : List Char) :
    splitFirst M (M ++ y) = some ([], y) := by
  cases M with
  | nil =>
    cases y with
    | nil => rfl
    | cons c cs =>
      rw [List.nil_append, splitFirst_cons, if_pos (by simp [List.isPrefixOf])]
      simp
  | cons m M' =>
    rw [List.cons_append, splitFirst_cons]
    have hpre : (m :: M').isPrefixOf (m :: (M' ++ y)) = true := by
      rw [List.isPrefixOf_iff_prefix, ← List.cons_append]
      exact List.prefix_append _ _
    rw [if_pos (by simp [hpre]), ← List.cons_append, List.drop_left]

/-! ### Composite skip lemmas -/

theorem sfNoneLtFree {M x y : List Char} (hMh : M.head? = some '<')
    (hx : ltFree x) (hrec : splitFirst M y = none) :
    splitFirst M (x ++ y) = none := by
  rw [splitFirst_append_ltFree hMh hx y, hrec]
  rfl

theorem sfNoneClean {M x y : List Char} (hMd : ltFree (M.drop 1))
    (hx : splitFirst M x = none) (hy : y.head? = some '<')
    (hrec : splitFirst M y = none) : splitFirst M (x ++ y) = none := by
  rw [splitFirst_append_of_none hMd hx hy, hrec]
  rfl

theorem sfNoneMarker {M K y : List Char} (hMh : M.head? = some '<')
    (hKd : ltFree (K.drop 1)) (hMK : M.isPrefixOf K = false)
    (hKM : K.isPrefixOf M = false) (hrec : splitFirst M y = none) :
    splitFirst M (K ++ y) = none := by
  rw [splitFirst_append_marker hMh hKd hMK hKM y, hrec]
  rfl

theorem sfSomeLtFree {M x y a b : List Char} (hMh : M.head? = some '<')
    (hx : ltFree x) (h : splitFirst M y = some (a, b)) :
    splitFirst M (x ++ y) = some (x ++ a, b) := by
  rw [splitFirst_append_ltFree hMh hx y, h]
  rfl

theorem sfSomeClean {M x y a b : List Char} (hMd : ltFree (M.drop 1))
    (hx : splitFirst M x = none) (hy : y.head? = some '<')
    (h : splitFirst M y = some (a, b)) :
    splitFirst M (x ++ y) = some (x ++ a, b) := by
  rw [splitFirst_append_of_none hMd hx hy, h]
  rfl

theorem sfSomeMarker {M K y a b : List Char} (hMh : M.head? = some '<')
    (hKd : ltFree (K.drop 1)) (hMK : M.isPrefixOf K = false)
    (hKM : K.isPrefixOf M = false) (h : splitFirst M y = some (a, b)) :
    splitFirst M (K ++ y) = some (K ++ a, b) := by
  rw [splitFirst_append_marker hMh hKd hMK hKM y, h]
  rfl

theorem sfFoundClean {M x z : List Char} (hMh : M.head? = some '<')
    (hMd : ltFree (M.drop 1)) (hx : splitFirst M x = none) :
    splitFirst M (x ++ (M ++ z)) = some (x, z) := by
  have hyh : (M ++ z).head? = some '<' := by
    obtain ⟨M', rfl⟩ := head_lt_cases hMh
    rfl
  rw [splitFirst_append_of_none hMd hx hyh, splitFirst_self_append]
  simp

theorem sfFoundLtFree {M x z : List Char} (hMh : M.head? = some '<')
    (hx : ltFree x) : splitFirst M (x ++ (M ++ z)) = some (x, z) := by
  rw [splitFirst_append_ltFree hMh hx _, splitFirst_self_append]
  simp

/-! ### `subMarkers` on well-separated documents -/

theorem subAux_of_none {S E r q : List Char} (h : splitFirst S q = none) :
    ∀ f, subAux S E r f q = q
  | 0 => rfl
  | f + 1 => by simp [subAux, h]

theorem subMarkers_of_none {S E r s : List Char} (h : splitFirst S s = none) :
    subMarkers S E r s = s := by
  simp [subMarkers, subAux, h]

theorem subMarkers_step {S E r s a rest m q : List Char}
    (h1 : splitFirst S s = some (a, rest)) (h2 : splitFirst E rest = some (m, q))
    (h3 : splitFirst S q = none) :
    subMarkers S E r s = a ++ (S ++ (r ++ (E ++ q))) := by
  simp [subMarkers, subAux, h1, h2, subAux_of_none h3]

/-- Replacing the single well-separated `S..E` region of a document. -/
theorem subMarkers_replace (S E r : List Char)
    (hSh : S.head? = some '<') (hSd : ltFree (S.drop 1))
    (hEh : E.head? = some '<')
    {x m y : List Char} (hx : splitFirst S x = none) (hm : ltFree m)
    (hy : splitFirst S y = none) :
    subMarkers S E r (x ++ (S ++ (m ++ (E ++ y)))) = x ++ (S ++ (r ++ (E ++ y))) :=
  subMarkers_step (sfFoundClean hSh hSd hx) (sfFoundLtFree hEh hm) hy

theorem ltFree_padBoth {v : List Char} (hv : ltFree v) : ltFree (padBoth v) := by
  intro a ha
  simp [padBoth] at ha
  rcases ha with rfl | ha | rfl
  · decide
  · exact hv a ha
  · decide

theorem ltFree_padLeft {v : List Char} (hv : ltFree v) : ltFree (padLeft v) := by
  intro a ha
  simp [padLeft] at ha
  rcases ha with rfl | ha
  · decide
  · exact hv a ha

/-- The version substitution on a well-formed document rewrites exactly the
version region. -/
theorem subMarkers_assemble_V {A B C D2 m1 m2 m3 : List Char} (r : List Char)
    (hWF : WFParts A B C D2 m1 m2 m3) :
    subMarkers VERSION_START_MARKER VERSION_END_MARKER r
        (assemble A m1 B m2 C m3 D2) =
      assemble A r B m2 C m3 D2 := by
  obtain ⟨hA, hB, hC, hD, hm1, hm2, hm3⟩ := hWF
  have hy : splitFirst VERSION_START_MARKER
      (B ++ (COMPATIBLE_VERSION_START_MARKER ++ (m2 ++
        (COMPATIBLE_VERSION_END_MARKER ++ (C ++ (DATE_START_MARKER ++
          (m3 ++ (DATE_END_MARKER ++ D2)))))))) = none := by
    refine sfNoneClean (by decide) hB.1 rfl ?_
    refine sfNoneMarker (by decide) (by decide) (by decide) (by decide) ?_
    refine sfNoneLtFree (by decide) hm2 ?_
    refine sfNoneMarker (by decide) (by decide) (by decide) (by decide) ?_
    refine sfNoneClean (by decide) hC.1 rfl ?_
    refine sfNoneMarker (by decide) (by decide) (by decide) (by decide) ?_
    refine sfNoneLtFree (by decide) hm3 ?_
    refine sfNoneMarker (by decide) (by decide) (by decide) (by decide) ?_
    exact hD.1
  exact subMarkers_replace _ _ r (by decide) (by decide) (by decide) hA.1 hm1 hy

/-- The compatible-version substitution on a well-formed document rewrites
exactly the compatible-version region. -/
theorem subMarkers_assemble_C {A B C D2 m1 m2 m3 : List Char} (r : List Char)
    (hWF : WFParts A B C D2 m1 m2 m3) :
    subMarkers COMPATIBLE_VERSION_START_MARKER COMPATIBLE_VERSION_END_MARKER r
        (assemble A m1 B m2 C m3 D2) =
      assemble A m1 B r C m3 D2 := by
  obtain ⟨hA, hB, hC, hD, hm1, hm2, hm3⟩ := hWF
  have hx : splitFirst COMPATIBLE_VERSION_START_MARKER
      (A ++ (VERSION_START_MARKER ++ (m1 ++ (VERSION_END_MARKER ++ B)))) = none := by
    refine sfNoneClean (by decide) hA.2.2.1 rfl ?_
    refine sfNoneMarker (by decide) (by decide) (by decide) (by decide) ?_
    refine sfNoneLtFree (by decide) hm1 ?_
    refine sfNoneMarker (by decide) (by decide) (by decide) (by decide) ?_
    exact hB.2.2.1
  have hy : splitFirst COMPATIBLE_VERSION_START_MARKER
      (C ++ (DATE_START_MARKER ++ (m3 ++ (DATE_END_MARKER ++ D2)))) = none := by
    refine sfNoneClean (by decide) hC.2.2.1 rfl ?_
    refine sfNoneMarker (by decide) (by decide) (by decide) (by decide) ?_
    refine sfNoneLtFree (by decide) hm3 ?_
    refine sfNoneMarker (by decide) (by decide) (by decide) (by decide) ?_
    exact hD.2.2.1
  have h := subMarkers_replace _ COMPATIBLE_VERSION_END_MARKER r (by decide)
    (by decide) (by decide) hx hm2 hy
  have e1 : (A ++ (VERSION_START_MARKER ++ (m1 ++ (VERSION_END_MARKER ++ B)))) ++
      (COMPATIBLE_VERSION_START_MARKER ++ (m2 ++ (COMPATIBLE_VERSION_END_MARKER ++
        (C ++ (DATE_START_MARKER ++ (m3 ++ (DATE_END_MARKER ++ D2))))))) =
      assemble A m1 B m2 C m3 D2 := by
    simp [assemble, List.append_assoc]
  have e2 : (A ++ (VERSION_START_MARKER ++ (m1 ++ (VERSION_END_MARKER ++ B)))) ++
      (COMPATIBLE_VERSION_START_MARKER ++ (r ++ (COMPATIBLE_VERSION_END_MARKER ++
        (C ++ (DATE_START_MARKER ++ (m3 ++ (DATE_END_MARKER ++ D2))))))) =
      assemble A m1 B r C m3 D2 := by
    simp [assemble, List.append_assoc]
  rw [e1, e2] at h
  exact h

/-- The date substitution on a well-formed document rewrites exactly the
date region. -/
theorem subMarkers_assemble_D {A B C D2 m1 m2 m3 : List Char} (r : List Char)
    (hWF : WFParts A B C D2 m1 m2 m3) :
    subMarkers DATE_START_MARKER DATE_END_MARKER r
        (assemble A m1 B m2 C m3 D2) =
      assemble A m1 B m2 C r D2 := by
  obtain ⟨hA, hB, hC, hD, hm1, hm2, hm3⟩ := hWF
  have hx : splitFirst DATE_START_MARKER
      (A ++ (VERSION_START_MARKER ++ (m1 ++ (VERSION_END_MARKER ++
        (B ++ (COMPATIBLE_VERSION_START_MARKER ++ (m2 ++
          (COMPATIBLE_VERSION_END_MARKER ++ C)))))))) = none := by
    refine sfNoneClean (by decide) hA.2.2.2.2.1 rfl ?_
    refine sfNoneMarker (by decide) (by decide) (by decide) (by decide) ?_
    refine sfNoneLtFree (by decide) hm1 ?_
    refine sfNoneMarker (by decide) (by decide) (by decide) (by decide) ?_
    refine sfNoneClean (by decide) hB.2.2.2.2.1 rfl ?_
    refine sfNoneMarker (by decide) (by decide) (by decide) (by decide) ?_
    refine sfNoneLtFree (by decide) hm2 ?_
    refine sfNoneMarker (by decide) (by decide) (by decide) (by decide) ?_
    exact hC.2.2.2.2.1
  have hy : splitFirst DATE_START_MARKER D2 = none := hD.2.2.2.2.1
  have h := subMarkers_replace _ DATE_END_MARKER r (by decide)
    (by decide) (by decide) hx hm3 hy
  have e1 : (A ++ (VERSION_START_MARKER ++ (m1 ++ (VERSION_END_MARKER ++
      (B ++ (COMPATIBLE_VERSION_START_MARKER ++ (m2 ++
        (COMPATIBLE_VERSION_END_MARKER ++ C)))))))) ++
      (DATE_START_MARKER ++ (m3 ++ (DATE_END_MARKER ++ D2))) =
      assemble A m1 B m2 C m3 D2 := by
    simp [assemble, List.append_assoc]
  have e2 : (A ++ (VERSION_START_MARKER ++ (m1 ++ (VERSION_END_MARKER ++
      (B ++ (COMPATIBLE_VERSION_START_MARKER ++ (m2 ++
        (COMPATIBLE_VERSION_END_MARKER ++ C)))))))) ++
      (DATE_START_MARKER ++ (r ++ (DATE_END_MARKER ++ D2))) =
      assemble A m1 B m2 C r D2 := by
    simp [assemble, List.append_assoc]
  rw [e1, e2] at h
  exact h

/-- Master shape theorem: on a well-formed document, `update_content`
rewrites exactly the three region interiors — the sentinels and all text
outside the regions are reproduced verbatim. -/
theorem update_content_assemble {A B C D2 m1 m2 m3 : List Char}
    (vOpt dOpt : Option (List Char)) (today : List Char)
    (hWF : WFParts A B C D2 m1 m2 m3) (hv : optLtFree vOpt)
    (hd : optLtFree dOpt) (ht : ltFree today) :
    update_content (assemble A m1 B m2 C m3 D2) vOpt dOpt today =
      assemble A (newV1 vOpt m1) B (newV2 vOpt m2) C (newDate dOpt today) D2 := by
  rcases vOpt with _ | v
  · rcases dOpt with _ | d
    · simp only [update_content, newV1, newV2, newDate]
      exact subMarkers_assemble_D (padBoth today) hWF
    · rcases d with _ | ⟨dc, dr⟩
      · simp only [update_content, newV1, newV2, newDate]
        exact subMarkers_assemble_D (padBoth today) hWF
      · simp only [update_content, newV1, newV2, newDate]
        exact subMarkers_assemble_D (padBoth (dc :: dr)) hWF
  · rcases v with _ | ⟨vc, vr⟩
    · rcases dOpt with _ | d
      · simp only [update_content, newV1, newV2, newDate]
        exact subMarkers_assemble_D (padBoth today) hWF
      · rcases d with _ | ⟨dc, dr⟩
        · simp only [update_content, newV1, newV2, newDate]
          exact subMarkers_assemble_D (padBoth today) hWF
        · simp only [update_content, newV1, newV2, newDate]
          exact subMarkers_assemble_D (padBoth (dc :: dr)) hWF
    · have hv' : ltFree (vc :: vr) := hv
      have hWF2 : WFParts A B C D2 (padBoth (vc :: vr)) m2 m3 :=
        ⟨hWF.1, hWF.2.1, hWF.2.2.1, hWF.2.2.2.1, ltFree_padBoth hv',
          hWF.2.2.2.2.2.1, hWF.2.2.2.2.2.2⟩
      have hWF3 : WFParts A B C D2 (padBoth (vc :: vr)) (padLeft (vc :: vr)) m3 :=
        ⟨hWF.1, hWF.2.1, hWF.2.2.1, hWF.2.2.2.1, ltFree_padBoth hv',
          ltFree_padLeft hv', hWF.2.2.2.2.2.2⟩
      rcases dOpt with _ | d
      · simp only [update_content, newV1, newV2, newDate]
        rw [subMarkers_assemble_V (padBoth (vc :: vr)) hWF,
          subMarkers_assemble_C (padLeft (vc :: vr)) hWF2]
        exact subMarkers_assemble_D (padBoth today) hWF3
      · rcases d with _ | ⟨dc, dr⟩
        · simp only [update_content, newV1, newV2, newDate]
          rw [subMarkers_assemble_V (padBoth (vc :: vr)) hWF,
            subMarkers_assemble_C (padLeft (vc :: vr)) hWF2]
          exact subMarkers_assemble_D (padBoth today) hWF3
        · simp only [update_content, newV1, newV2, newDate]
          rw [subMarkers_assemble_V (padBoth (vc :: vr)) hWF,
            subMarkers_assemble_C (padLeft (vc :: vr)) hWF2]
          exact subMarkers_assemble_D (padBoth (dc :: dr)) hWF3

/-- After a successful run the file holds the computed content (also in the
no-change case, where that content is the original). -/
theorem update_readme_file_ok (c : List Char) (vOpt dOpt : Option (List Char))
    (today : List Char) :
    (update_readme (some c) vOpt dOpt today WriteOutcome.ok).file =
      some (update_content c vOpt dOpt today) := by
  simp only [update_readme]
  split
  · rename_i h
    simp [h]
  · rfl

/-- When the computed content equals the original, `update_readme` leaves
the file alone, attempts no write, and returns `False`. -/
theorem update_readme_noop {c : List Char} {vOpt dOpt : Option (List Char)}
    {today : List Char} (w : WriteOutcome)
    (h : update_content c vOpt dOpt today = c) :
    update_readme (some c) vOpt dOpt today w = ⟨some c, false, false⟩ := by
  simp [update_readme, h]

theorem newV1_idem (vOpt : Option (List Char)) (m : List Char) :
    newV1 vOpt (newV1 vOpt m) = newV1 vOpt m := by
  rcases vOpt with _ | v
  · rfl
  · rcases v with _ | ⟨c, vr⟩ <;> rfl

theorem newV2_idem (vOpt : Option (List Char)) (m : List Char) :
    newV2 vOpt (newV2 vOpt m) = newV2 vOpt m := by
  rcases vOpt with _ | v
  · rfl
  · rcases v with _ | ⟨c, vr⟩ <;> rfl

/-- The rewritten interiors are `<`-free, so a rewritten well-formed
document is again well-formed. -/
theorem WFParts_after {A B C D2 m1 m2 m3 : List Char}
    (vOpt dOpt : Option (List Char)) (today : List Char)
    (hWF : WFParts A B C D2 m1 m2 m3) (hv : optLtFree vOpt)
    (hd : optLtFree dOpt) (ht : ltFree today) :
    WFParts A B C D2 (newV1 vOpt m1) (newV2 vOpt m2) (newDate dOpt today) := by
  refine ⟨hWF.1, hWF.2.1, hWF.2.2.1, hWF.2.2.2.1, ?_, ?_, ?_⟩
  · rcases vOpt with _ | v
    · exact hWF.2.2.2.2.1
    · rcases v with _ | ⟨c, vr⟩
      · exact hWF.2.2.2.2.1
      · exact ltFree_padBoth hv
  · rcases vOpt with _ | v
    · exact hWF.2.2.2.2.2.1
    · rcases v with _ | ⟨c, vr⟩
      · exact hWF.2.2.2.2.2.1
      · exact ltFree_padLeft hv
  · rcases dOpt with _ | d
    · exact ltFree_padBoth ht
    · rcases d with _ | ⟨c, dr⟩
      · exact ltFree_padBoth ht
      · exact ltFree_padBoth hd

theorem readRegion_eq {S E c a rest m b : List Char}
    (h1 : splitFirst S c = some (a, rest)) (h2 : splitFirst E rest = some (m, b)) :
    readRegion S E c = some m := by
  simp [readRegion, h1, h2]

/-- Reading the version region of a well-formed document. -/
theorem readRegion_assemble_V {A B C D2 m1 m2 m3 : List Char}
    (hWF : WFParts A B C D2 m1 m2 m3) :
    readRegion VERSION_START_MARKER VERSION_END_MARKER
      (assemble A m1 B m2 C m3 D2) = some m1 := by
  obtain ⟨hA, hB, hC, hD, hm1, hm2, hm3⟩ := hWF
  apply readRegion_eq
  · simp only [assemble]
    exact sfFoundClean (by decide) (by decide) hA.1
  · exact sfFoundLtFree (by decide) hm1

/-- Reading the compatible-version region of a well-formed document. -/
theorem readRegion_assemble_C {A B C D2 m1 m2 m3 : List Char}
    (hWF : WFParts A B C D2 m1 m2 m3) :
    readRegion COMPATIBLE_VERSION_START_MARKER COMPATIBLE_VERSION_END_MARKER
      (assemble A m1 B m2 C m3 D2) = some m2 := by
  obtain ⟨hA, hB, hC, hD, hm1, hm2, hm3⟩ := hWF
  apply readRegion_eq
  · simp only [assemble]
    apply sfSomeClean (by decide) hA.2.2.1 (by rfl)
    apply sfSomeMarker (by decide) (by decide) (by decide) (by decide)
    apply sfSomeLtFree (by decide) hm1
    apply sfSomeMarker (by decide) (by decide) (by decide) (by decide)
    exact sfFoundClean (by decide) (by decide) hB.2.2.1
  · exact sfFoundLtFree (by decide) hm2

/-- Reading the date region of a well-formed document. -/
theorem readRegion_assemble_D {A B C D2 m1 m2 m3 : List Char}
    (hWF : WFParts A B C D2 m1 m2 m3) :
    readRegion DATE_START_MARKER DATE_END_MARKER
      (assemble A m1 B m2 C m3 D2) = some m3 := by
  obtain ⟨hA, hB, hC, hD, hm1, hm2, hm3⟩ := hWF
  apply readRegion_eq
  · simp only [assemble]
    apply sfSomeClean (by decide) hA.2.2.2.2.1 (by rfl)
    apply sfSomeMarker (by decide) (by decide) (by decide) (by decide)
    apply sfSomeLtFree (by decide) hm1
    apply sfSomeMarker (by decide) (by decide) (by decide) (by decide)
    apply sfSomeClean (by decide) hB.2.2.2.2.1 (by rfl)
    apply sfSomeMarker (by decide) (by decide) (by decide) (by decide)
    apply sfSomeLtFree (by decide) hm2
    apply sfSomeMarker (by decide) (by decide) (by decide) (by decide)
    exact sfFoundClean (by decide) (by decide) hC.2.2.2.2.1
  · exact sfFoundLtFree (by decide) hm3

/-! ## Parser lemmas -/

/-- Any group returned by `VERSION_TEXT_PATTERN.search` is a nonempty run
of digits and dots. -/
theorem versionSearch_shape :
    ∀ (t g : List Char), versionSearch t = some g →
      g ≠ [] ∧ ∀ ch ∈ g, ch.isDigit = true ∨ ch = '.' := by
  intro t
  induction t with
  | nil =>
    intro g h
    simp [versionSearch] at h
  | cons c cs ih =>
    intro g h
    simp only [versionSearch] at h
    split at h
    · split at h
      · exact ih g h
      · rename_i hgrp
        injection h with h'
        subst h'
        refine ⟨hgrp, ?_⟩
        intro ch hch
        have hdd := List.mem_takeWhile_imp hch
        simp [isDigitDot] at hdd
        exact hdd
    · exact ih g h

/-! ## The claims -/

/-- Claim C6: for an absent (`None`) or empty HTML input, `parse_content`
returns `(None, None)` immediately, whatever the parsing library would
have done. -/
theorem c6_theorem (fromstring : List Char → Option HtmlTree) :
    parse_content fromstring none = (none, none) ∧
    parse_content fromstring (some []) = (none, none) :=
  ⟨rfl, by simp [parse_content]⟩

/-- Claim C7: when the target file does not exist, `update_readme` returns
`False`, attempts no write, and the file is not created. -/
theorem c7_theorem (vOpt dOpt : Option (List Char)) (today : List Char)
    (w : WriteOutcome) :
    update_readme none vOpt dOpt today w = ⟨none, false, false⟩ := rfl

/-- Claim C10: `update_readme` returns `True` exactly when the computed
content differs from the original and the write succeeds; both the no-op
case and the `IOError` case return `False`, so the return value cannot
distinguish them. -/
theorem c10_theorem (c : List Char) (vOpt dOpt : Option (List Char))
    (today : List Char) (w : WriteOutcome) :
    (update_readme (some c) vOpt dOpt today w).ret = true ↔
      (update_content c vOpt dOpt today ≠ c ∧ w = WriteOutcome.ok) := by
  simp only [update_readme]
  split
  · rename_i h
    simp [h]
  · rename_i h
    cases w
    · simp [h]
    · simp [h]

/-- Claim C8: date extraction runs the ordered `DATE_PATTERNS` list against
the full visible text and stops at the first pattern that matches,
returning its captured group: the locale-aware "last updated" pattern is
consulted first and the bare `YYYY-MM-DD` pattern only if it missed. -/
theorem c8_theorem (fromstring : List Char → Option HtmlTree) (html : List Char)
    (tree : HtmlTree) (hne : html ≠ []) (hfs : fromstring html = some tree) :
    (parse_content fromstring (some html)).2 =
      match dateSearch1 tree.textContent with
      | some g => some g
      | none => dateSearch2 tree.textContent := by
  simp only [parse_content, if_neg hne, hfs]
  simp only [DATE_PATTERNS, firstMatch]
  cases h1 : dateSearch1 tree.textContent with
  | some g => simp [h1]
  | none =>
    simp only [h1]
    cases h2 : dateSearch2 tree.textContent with
    | some g => simp [h2]
    | none => simp [h2]

/-- Witness for C8 on a text where both patterns match different dates:
the labelled pattern wins even though the bare pattern matches earlier in
the text. -/
theorem c8_witness :
    (parse_content c8Fromstring (some "page".toList)).2 = some "2021-07-09".toList ∧
    dateSearch2 c8Text = some "2020-05-05".toList := by
  constructor
  · rw [c8_theorem c8Fromstring "page".toList ⟨[], c8Text⟩ (by decide) rfl]
    decide
  · decide

/-- Claim C9: whenever version extraction succeeds, the result is a capital
`V` followed by the nonempty matched run of digits and dots — also when
the page text used a lowercase `v` or whitespace before the digits. -/
theorem c9_theorem (fromstring : List Char → Option HtmlTree)
    (html : Option (List Char)) (ver : List Char)
    (h : (parse_content fromstring html).1 = some ver) :
    ∃ g, ver = 'V' :: g ∧ g ≠ [] ∧ ∀ ch ∈ g, ch.isDigit = true ∨ ch = '.' := by
  rcases html with _ | t
  · simp [parse_content] at h
  · by_cases ht : t = []
    · rw [ht] at h
      simp [parse_content] at h
    · cases hfs : fromstring t with
      | none => simp [parse_content, ht, hfs] at h
      | some tree =>
        simp only [parse_content, if_neg ht, hfs] at h
        cases hx : tree.xpathFontTexts with
        | nil =>
          rw [hx] at h
          simp at h
        | cons e es =>
          rw [hx] at h
          cases hvs : versionSearch (pyStrip e) with
          | none => simp [hvs] at h
          | some g =>
            simp only [hvs, Option.some.injEq] at h
            obtain ⟨hne, hall⟩ := versionSearch_shape _ _ hvs
            exact ⟨g, h.symm, hne, hall⟩

/-- Witness for C9: an XPath hit reading `"  v 4.1.29 (android)  "` is
normalised to `"V4.1.29"`. -/
theorem c9_witness :
    (parse_content c9Fromstring (some "page".toList)).1 =
      some ('V' :: "4.1.29".toList) ∧
    ∃ g, 'V' :: "4.1.29".toList = 'V' :: g ∧ g ≠ [] ∧
      ∀ ch ∈ g, ch.isDigit = true ∨ ch = '.' :=
  ⟨by decide,
   c9_theorem c9Fromstring (some "page".toList) ('V' :: "4.1.29".toList) (by decide)⟩

/-- Claim C1 is false on this code: a well-formed page whose visible text
contains the recognisable token `V1.2.3` (the script's own version pattern
finds it) still yields no version when the structural XPath lookup selects
nothing — `parse_content` has no regex fallback for the version, only for
the date. -/
theorem c1_counterexample :
    versionSearch "Current version: V1.2.3".toList = some "1.2.3".toList ∧
    (parse_content c1Fromstring (some c1Html)).1 = none ∧
    (parse_content c1Fromstring (some c1Html)).1 ≠ some ('V' :: "1.2.3".toList) :=
  ⟨by decide, by decide, by decide⟩

/-- Claim C1 (amended): version extraction is XPath-only.  When the lookup
selects no element the version result is `None` regardless of the visible
text; when it selects an element whose stripped text matches the version
pattern, the captured group is returned with a `V` prefix. -/
theorem c1_theorem (fromstring : List Char → Option HtmlTree) (html : List Char)
    (tree : HtmlTree) (hne : html ≠ []) (hfs : fromstring html = some tree) :
    (tree.xpathFontTexts = [] → (parse_content fromstring (some html)).1 = none) ∧
    ∀ e es g, tree.xpathFontTexts = e :: es → versionSearch (pyStrip e) = some g →
      (parse_content fromstring (some html)).1 = some ('V' :: g) := by
  constructor
  · intro hx
    simp [parse_content, hne, hfs, hx]
  · intro e es g hx hvs
    simp [parse_content, hne, hfs, hx, hvs]

/-- Witness for the amended C1: the XPath miss yields `None`, the XPath hit
yields the normalised version. -/
theorem c1_witness :
    (parse_content c1Fromstring (some c1Html)).1 = none ∧
    (parse_content c9Fromstring (some "page".toList)).1 =
      some ('V' :: "4.1.29".toList) :=
  ⟨(c1_theorem c1Fromstring c1Html ⟨[], "Current version: V1.2.3".toList⟩
      (by decide) rfl).1 rfl,
   (c1_theorem c9Fromstring "page".toList
      ⟨["  v 4.1.29 (android)  ".toList], "v 4.1.29".toList⟩ (by decide) rfl).2
     "  v 4.1.29 (android)  ".toList [] "4.1.29".toList rfl (by decide)⟩

/-- Claim C3 (frame effect): on a document with the three well-separated
sentinel pairs, `update_content` changes only the text strictly between
the pairs: the six sentinels and every character outside the delimited
spans reappear verbatim, for every combination of version/date
arguments. -/
theorem c3_theorem {A B C D2 m1 m2 m3 : List Char}
    (vOpt dOpt : Option (List Char)) (today : List Char)
    (hWF : WFParts A B C D2 m1 m2 m3) (hv : optLtFree vOpt)
    (hd : optLtFree dOpt) (ht : ltFree today) :
    update_content (assemble A m1 B m2 C m3 D2) vOpt dOpt today =
      assemble A (newV1 vOpt m1) B (newV2 vOpt m2) C (newDate dOpt today) D2 :=
  update_content_assemble vOpt dOpt today hWF hv hd ht

/-- Witness for C3. -/
theorem c3_witness :
    update_content (assemble exA exm1 exB exm2 exC exm3 exD) (some exV)
        (some exDate) exToday =
      assemble exA (newV1 (some exV) exm1) exB (newV2 (some exV) exm2) exC
        (newDate (some exDate) exToday) exD :=
  c3_theorem (some exV) (some exDate) exToday (by decide) (by decide) (by decide)
    (by decide)

/-- Claim C2 (round trip): after a run with a version present, the text
strictly between the primary version sentinels is exactly the version
flanked by single spaces, and the text between the compatibility-note
sentinels is a single space followed by the version with no trailing
padding — independent of what previously occupied the regions. -/
theorem c2_theorem {A B C D2 m1 m2 m3 : List Char} (v today : List Char)
    (dOpt : Option (List Char)) (hWF : WFParts A B C D2 m1 m2 m3)
    (hvne : v ≠ []) (hv : ltFree v) (hd : optLtFree dOpt) (ht : ltFree today) :
    (update_readme (some (assemble A m1 B m2 C m3 D2)) (some v) dOpt today
        WriteOutcome.ok).file =
      some (update_content (assemble A m1 B m2 C m3 D2) (some v) dOpt today) ∧
    readRegion VERSION_START_MARKER VERSION_END_MARKER
      (update_content (assemble A m1 B m2 C m3 D2) (some v) dOpt today) =
        some (padBoth v) ∧
    readRegion COMPATIBLE_VERSION_START_MARKER COMPATIBLE_VERSION_END_MARKER
      (update_content (assemble A m1 B m2 C m3 D2) (some v) dOpt today) =
        some (padLeft v) := by
  obtain ⟨vc, vr, rfl⟩ : ∃ vc vr, v = vc :: vr := by
    cases v with
    | nil => exact absurd rfl hvne
    | cons vc vr => exact ⟨vc, vr, rfl⟩
  have hmaster := update_content_assemble (some (vc :: vr)) dOpt today hWF hv hd ht
  have hWF2 := WFParts_after (some (vc :: vr)) dOpt today hWF hv hd ht
  refine ⟨update_readme_file_ok _ _ _ _, ?_, ?_⟩
  · rw [hmaster]
    simpa [newV1] using readRegion_assemble_V hWF2
  · rw [hmaster]
    simpa [newV2] using readRegion_assemble_C hWF2

/-- Witness for C2. -/
theorem c2_witness :
    (update_readme (some (assemble exA exm1 exB exm2 exC exm3 exD)) (some exV)
        (some exDate) exToday WriteOutcome.ok).file =
      some (update_content (assemble exA exm1 exB exm2 exC exm3 exD) (some exV)
        (some exDate) exToday) ∧
    readRegion VERSION_START_MARKER VERSION_END_MARKER
      (update_content (assemble exA exm1 exB exm2 exC exm3 exD) (some exV)
        (some exDate) exToday) = some (padBoth exV) ∧
    readRegion COMPATIBLE_VERSION_START_MARKER COMPATIBLE_VERSION_END_MARKER
      (update_content (assemble exA exm1 exB exm2 exC exm3 exD) (some exV)
        (some exDate) exToday) = some (padLeft exV) :=
  c2_theorem exV exToday (some exDate) (by decide) (by decide) (by decide)
    (by decide) (by decide)

/-- Claim C4: if the computed text equals the original, `update_readme`
attempts no write, leaves the file alone and returns `False` — for every
file content; and on a well-formed document a second run with the same
version/date inputs on the file produced by the first run performs no
second write. -/
theorem c4_theorem {A B C D2 m1 m2 m3 : List Char}
    (vOpt dOpt : Option (List Char)) (today : List Char)
    (hWF : WFParts A B C D2 m1 m2 m3) (hv : optLtFree vOpt)
    (hd : optLtFree dOpt) (ht : ltFree today) :
    (∀ (c : List Char) (w : WriteOutcome), update_content c vOpt dOpt today = c →
      update_readme (some c) vOpt dOpt today w = ⟨some c, false, false⟩) ∧
    ∀ f', (update_readme (some (assemble A m1 B m2 C m3 D2)) vOpt dOpt today
        WriteOutcome.ok).file = some f' →
      update_readme (some f') vOpt dOpt today WriteOutcome.ok =
        ⟨some f', false, false⟩ := by
  refine ⟨fun c w h => update_readme_noop w h, ?_⟩
  intro f' hf
  rw [update_readme_file_ok] at hf
  injection hf with hf'
  subst hf'
  rw [update_content_assemble vOpt dOpt today hWF hv hd ht]
  refine update_readme_noop _ ?_
  rw [update_content_assemble vOpt dOpt today
    (WFParts_after vOpt dOpt today hWF hv hd ht) hv hd ht, newV1_idem, newV2_idem]

/-- Witness for C4. -/
theorem c4_witness :
    (∀ (c : List Char) (w : WriteOutcome),
      update_content c (some exV) (some exDate) exToday = c →
      update_readme (some c) (some exV) (some exDate) exToday w =
        ⟨some c, false, false⟩) ∧
    ∀ f', (update_readme (some (assemble exA exm1 exB exm2 exC exm3 exD))
        (some exV) (some exDate) exToday WriteOutcome.ok).file = some f' →
      update_readme (some f') (some exV) (some exDate) exToday WriteOutcome.ok =
        ⟨some f', false, false⟩ :=
  c4_theorem (some exV) (some exDate) exToday (by decide) (by decide) (by decide)
    (by decide)

/-- Claim C5: on an existing well-formed document the date region is always
rewritten — single-space-padded scraped date when one is present, the
current local date otherwise — never left at its previous value. -/
theorem c5_theorem {A B C D2 m1 m2 m3 : List Char}
    (vOpt dOpt : Option (List Char)) (today : List Char)
    (hWF : WFParts A B C D2 m1 m2 m3) (hv : optLtFree vOpt)
    (hd : optLtFree dOpt) (ht : ltFree today) :
    ∀ f', (update_readme (some (assemble A m1 B m2 C m3 D2)) vOpt dOpt today
        WriteOutcome.ok).file = some f' →
      readRegion DATE_START_MARKER DATE_END_MARKER f' =
        some (newDate dOpt today) := by
  intro f' hf
  rw [update_readme_file_ok] at hf
  injection hf with hf'
  subst hf'
  rw [update_content_assemble vOpt dOpt today hWF hv hd ht]
  exact readRegion_assemble_D (WFParts_after vOpt dOpt today hWF hv hd ht)

/-- Witness for C5 (date absent: the current date is substituted). -/
theorem c5_witness :
    readRegion DATE_START_MARKER DATE_END_MARKER
      (update_content (assemble exA exm1 exB exm2 exC exm3 exD) (some exV) none
        exToday) = some (newDate none exToday) :=
  c5_theorem (some exV) none exToday (by decide) (by decide) (by decide)
    (by decide)
    (update_content (assemble exA exm1 exB exm2 exC exm3 exD) (some exV) none
      exToday)
    (update_readme_file_ok _ _ _ _)
